import Mathlib

/-!
# abstruse worker: job execution and coordinator transport

A shallow embedding of `worker/process.go` (`StartJob`) and `worker/grpc.go`
(`NewGRPCClient`, `StreamOnlineStatus`, `UploadFile`).

Every call the Go code makes to a collaborator (the docker client, the relay
client, the status senders, the gRPC streams, the file) is recorded as an
event of a trace, in program order.  What the collaborator answers is given by
a *world*: a script of answers, one per call site and, inside a loop, one per
iteration.  The Go functions are deterministic and sequential, so quantifying
over all worlds covers every behaviour of the collaborators.
-/

/-- A non-nil Go `error` value; the Go type `error` is `Option GoError`, with
`none` for `nil`. -/
structure GoError where
  msg : String
  deriving DecidableEq, Repr

/-! ## The Go library functions used by `StartJob` -/

namespace strings

/-- The pieces of a character sequence between the occurrences of the
separator `sep`: one more piece than there are separators. -/
def splitChars (sep : Char) : List Char → List (List Char)
  | [] => [[]]
  | c :: cs =>
    if c = sep then [] :: splitChars sep cs
    else
      match splitChars sep cs with
      | [] => [[c]]
      | t :: ts => (c :: t) :: ts

/-- Go `strings.Split(s, sep)` for a separator of one character, which is how
`StartJob` calls it (`strings.Split(taskcmd, " ")`). -/
def Split (s : String) (sep : Char) : List String :=
  (splitChars sep s.data).map String.mk

/-- Go `strings.Join(elems, sep)`. -/
def Join : List String → String → String
  | [], _ => ""
  | [a], _ => a
  | a :: b :: rest, sep => a ++ sep ++ Join (b :: rest) sep

end strings

namespace strconv

/-- Go `strconv.Itoa`: the decimal rendering of an integer, with a leading
minus sign when it is negative. -/
def Itoa (i : Int) : String :=
  if i < 0 then "-" ++ Nat.repr i.natAbs else Nat.repr i.natAbs

end strconv

namespace worker

open strings strconv

/-! ## Job execution (`worker/process.go`) -/

/-- Modelled from the spec: the generated message type `pb.JobTask`, of which
`StartJob` reads the name, the image and the ordered raw command strings. -/
structure JobTask where
  Name : String
  Image : String
  Commands : List String
  deriving DecidableEq, Repr

/-- The calls `StartJob` makes, with their arguments. -/
inductive Event
  | GetClient
  | CreateContainer (name image : String) (env : List String)
  | SendRunningStatus (name : String)
  | SendPassingStatus (name : String)
  | SendStoppedStatus (name : String)
  | SendFailingStatus (name : String)
  | IsContainerRunning (containerID : String)
  | StartContainer (containerID : String)
  | WriteContainerOutput (containerID text : String)
  | Exec (containerID : String) (cmd : List String)
  | StreamContainerOutput (conn : Nat) (containerID : String)
  | ContainerExecInspect (execID : String)
  | ContainerRemove (containerID : String) (force : Bool)
  deriving DecidableEq, Repr

/-- What the collaborators answer during one iteration of the command loop. -/
structure CommandRun where
  /-- answer of `docker.IsContainerRunning` -/
  running : Bool
  /-- error of `docker.StartContainer` (asked only when not running) -/
  start : Option GoError
  /-- error of the announcement `Client.WriteContainerOutput` -/
  announce : Option GoError
  /-- answer of `docker.Exec`: the connection and the exec identifier -/
  exec : Except GoError (Nat × String)
  /-- error of `Client.StreamContainerOutput` -/
  stream : Option GoError
  /-- answer of `cli.ContainerExecInspect`: the exit code -/
  inspect : Except GoError Int

/-- What the collaborators answer during one run of `StartJob`. -/
structure World where
  /-- error of `docker.GetClient` -/
  getClient : Option GoError
  /-- answer of `docker.CreateContainer`: the container identifier -/
  create : Except GoError String
  /-- error of `SendRunningStatus` -/
  sendRunning : Option GoError
  /-- answers during the i-th iteration of the command loop -/
  answers : Nat → CommandRun
  /-- error of the `Client.WriteContainerOutput` after the loop -/
  relayFinal : Option GoError
  /-- error of the terminal status send (Passing, Stopped or Failing) -/
  sendFinal : Option GoError
  /-- error of the final `cli.ContainerRemove` -/
  remove : Option GoError

/-- The value `StartJob` returns and the calls it made, in order. -/
structure Run where
  err : Option GoError
  trace : List Event
  deriving DecidableEq, Repr

/-- The body of the command loop for one tokenized command (process.go lines
44-70): the calls made, and either the error returned from inside the loop or
the exit code read by the inspect. -/
def runCommand (r : CommandRun) (containerID : String) (command : List String) :
    List Event × Except GoError Int :=
  let ev0 := [Event.IsContainerRunning containerID]
  let started : List Event × Option GoError :=
    if r.running then (ev0, none)
    else (ev0 ++ [Event.StartContainer containerID], r.start)
  match started with
  | (ev1, some e) => (ev1, .error e)
  | (ev1, none) =>
    let text := "\x1b[33;1m" ++ Join ("==>" :: command) " " ++ "\x1b[0m"
    let ev2 := ev1 ++ [Event.WriteContainerOutput containerID text]
    match r.announce with
    | some e => (ev2, .error e)
    | none =>
      let ev3 := ev2 ++ [Event.Exec containerID ("pty" :: command)]
      match r.exec with
      | .error e => (ev3, .error e)
      | .ok (conn, execID) =>
        let ev4 := ev3 ++ [Event.StreamContainerOutput conn containerID]
        match r.stream with
        | some e => (ev4, .error e)
        | none =>
          let ev5 := ev4 ++ [Event.ContainerExecInspect execID]
          match r.inspect with
          | .error e => (ev5, .error e)
          | .ok code => (ev5, .ok code)

/-- How the command loop is left: by a `return err` inside it, or by running
out of commands or by `break`, with the values of `exitCode` and `lastCommand`. -/
inductive LoopExit
  | abort (err : GoError)
  | done (exitCode : Int) (lastCommand : List String)
  deriving DecidableEq, Repr

/-- The command loop (process.go lines 43-75), from iteration `i` on, with the
current values of `exitCode` and `lastCommand`. -/
def runLoop (w : World) (containerID : String) :
    Nat → List (List String) → Int → List String → List Event × LoopExit
  | _, [], exitCode, lastCommand => ([], .done exitCode lastCommand)
  | i, command :: rest, _, _ =>
    match runCommand (w.answers i) containerID command with
    | (evs, .error e) => (evs, .abort e)
    | (evs, .ok exitCode) =>
      if exitCode ≠ 0 then (evs, .done exitCode command)
      else
        let next := runLoop w containerID (i + 1) rest exitCode command
        (evs ++ next.1, next.2)

/-- The tail shared by the three classification branches (process.go lines
77-103): relay `text`, send the terminal status, remove the container. -/
def reportOutcome (w : World) (containerID text : String) (status : Event)
    (sofar : List Event) : Run :=
  let t1 := sofar ++ [Event.WriteContainerOutput containerID text]
  match w.relayFinal with
  | some e => ⟨some e, t1⟩
  | none =>
    let t2 := t1 ++ [status]
    match w.sendFinal with
    | some e => ⟨some e, t2⟩
    | none => ⟨w.remove, t2 ++ [Event.ContainerRemove containerID true]⟩

/-- The Go function `StartJob` of process.go. -/
def StartJob (w : World) (task : JobTask) : Run :=
  let name := task.Name
  match w.getClient with
  | some e => ⟨some e, [Event.GetClient]⟩
  | none =>
    let commands := task.Commands.map (fun taskcmd => Split taskcmd ' ')
    let t1 := [Event.GetClient, Event.CreateContainer name task.Image []]
    match w.create with
    | .error e => ⟨some e, t1⟩
    | .ok containerID =>
      let t2 := t1 ++ [Event.SendRunningStatus name]
      match w.sendRunning with
      | some e => ⟨some e, t2⟩
      | none =>
        match runLoop w containerID 0 commands 0 [] with
        | (evs, .abort e) => ⟨some e, t2 ++ evs⟩
        | (evs, .done exitCode lastCommand) =>
          if exitCode = 0 then
            reportOutcome w containerID
              ("\n\x1b[32;1mThe command \"" ++ Join lastCommand " " ++ "\" exited with 0.\x1b[0m")
              (Event.SendPassingStatus name) (t2 ++ evs)
          else if exitCode = 137 then
            reportOutcome w containerID "\n\x1b[31;1mJob stopped with exit code 137.\x1b[0m"
              (Event.SendStoppedStatus name) (t2 ++ evs)
          else
            reportOutcome w containerID
              ("\n\x1b[31;1mThe command \"" ++ Join lastCommand " " ++ "\" exited with "
                ++ Itoa exitCode ++ ".\x1b[0m")
              (Event.SendFailingStatus name) (t2 ++ evs)

/-! ### Observations on a trace -/

/-- The status signals of a trace, in order. -/
def statusSignals (t : List Event) : List Event :=
  t.filter fun e =>
    match e with
    | .SendRunningStatus _ => true
    | .SendPassingStatus _ => true
    | .SendStoppedStatus _ => true
    | .SendFailingStatus _ => true
    | _ => false

/-- The container removals of a trace, in order. -/
def removals (t : List Event) : List Event :=
  t.filter fun e =>
    match e with
    | .ContainerRemove _ _ => true
    | _ => false

/-- The token sequences handed to `docker.Exec`, in order. -/
def execs (t : List Event) : List (List String) :=
  t.filterMap fun e =>
    match e with
    | .Exec _ cmd => some cmd
    | _ => none

/-- The command of one loop iteration runs without any error and exits with
`code`. -/
def CommandRun.exitsWith (r : CommandRun) (code : Int) : Prop :=
  (r.running = false → r.start = none) ∧ r.announce = none ∧
    (∃ c, r.exec = .ok c) ∧ r.stream = none ∧ r.inspect = .ok code

/-- The fields of `GRPCClientConfig`. -/
structure GRPCClientConfig where
  Address : String
  RootCertificate : String
  Compress : Bool
  deriving DecidableEq, Repr

/-- The dial options `NewGRPCClient` collects. -/
inductive DialOption
  | UseCompressor (name : String)
  | WithTransportCredentials (creds : Nat)
  | WithInsecure
  deriving DecidableEq, Repr

/-- The calls `NewGRPCClient` makes: loading the certificate and dialling. -/
inductive DialEvent
  | NewClientTLSFromFile (certFile serverName : String)
  | Dial (address : String) (opts : List DialOption)
  deriving DecidableEq, Repr

/-- What the collaborators answer to `NewGRPCClient`. -/
structure DialWorld where
  /-- answer of `credentials.NewClientTLSFromFile`: the credentials -/
  loadCert : Except GoError Nat
  /-- answer of `grpc.Dial`: the connection -/
  dial : Except GoError Nat

/-- The connection held by a `GRPCClient` (its logger and service client are
built from the arguments and the connection). -/
structure GRPCClient where
  conn : Nat
  deriving DecidableEq, Repr

/-- The Go function `NewGRPCClient` of grpc.go: the pair it returns and the
calls it made. -/
def NewGRPCClient (w : DialWorld) (cfg : GRPCClientConfig) :
    (Option GRPCClient × Option GoError) × List DialEvent :=
  let grpcOpts : List DialOption := []
  if cfg.Address = "" then
    ((none, some ⟨"grpc address endpoint must be specified"⟩), [])
  else
    let grpcOpts := if cfg.Compress then grpcOpts ++ [DialOption.UseCompressor "gzip"] else grpcOpts
    let withCreds : Except GoError (List DialOption) × List DialEvent :=
      if cfg.RootCertificate ≠ "" then
        match w.loadCert with
        | .error e => (.error e, [DialEvent.NewClientTLSFromFile cfg.RootCertificate "localhost"])
        | .ok grpcCreds =>
          (.ok (grpcOpts ++ [DialOption.WithTransportCredentials grpcCreds]),
            [DialEvent.NewClientTLSFromFile cfg.RootCertificate "localhost"])
      else (.ok (grpcOpts ++ [DialOption.WithInsecure]), [])
    match withCreds with
    | (.error e, evs) => ((none, some e), evs)
    | (.ok grpcOpts, evs) =>
      match w.dial with
      | .error _ =>
        ((none, some ⟨"failed to start grpc session to address: " ++ cfg.Address⟩),
          evs ++ [DialEvent.Dial cfg.Address grpcOpts])
      | .ok conn => ((some ⟨conn⟩, none), evs ++ [DialEvent.Dial cfg.Address grpcOpts])

/-- Modelled from the spec: the generated enumeration `pb.OnlineStatus_Code`,
of which the heartbeat only ever sends `Up`. -/
inductive OnlineStatusCode
  | Up
  deriving DecidableEq, Repr

/-- Modelled from the spec: the generated message `pb.OnlineStatus`, a status
record with a code. -/
structure OnlineStatus where
  Code : OnlineStatusCode
  deriving DecidableEq, Repr

/-- The Go constant `time.Second`, in nanoseconds. -/
def Second : Nat := 1000000000

/-- The calls `StreamOnlineStatus` makes; `Sleep` carries the duration in
nanoseconds. -/
inductive BeatEvent
  | OnlineCheck
  | Send (status : OnlineStatus)
  | Sleep (d : Nat)
  | CloseSend
  deriving DecidableEq, Repr

/-- What the collaborators answer to `StreamOnlineStatus`. -/
structure BeatWorld where
  /-- error of `c.client.OnlineCheck` -/
  onlineCheck : Option GoError
  /-- error of the n-th `stream.Send`, counted from 0 -/
  send : Nat → Option GoError

/-- The `for` loop of `StreamOnlineStatus` (grpc.go lines 84-91) from the n-th
send on, for at most `fuel` iterations: the error it returns with and the calls
made, or `none` when it is still running after `fuel` iterations. -/
def beatLoop (w : BeatWorld) : Nat → Nat → Option (GoError × List BeatEvent)
  | 0, _ => none
  | fuel + 1, n =>
    let status : OnlineStatus := ⟨OnlineStatusCode.Up⟩
    match w.send n with
    | some e => some (e, [BeatEvent.Send status])
    | none =>
      match beatLoop w fuel (n + 1) with
      | none => none
      | some (e, evs) => some (e, BeatEvent.Send status :: BeatEvent.Sleep (5 * Second) :: evs)

/-- The Go method `StreamOnlineStatus` of grpc.go, observed for at most `fuel`
iterations of its loop: the error returned and the calls made (the deferred
`CloseSend` last), or `none` when it has not returned by then. -/
def StreamOnlineStatus (w : BeatWorld) (fuel : Nat) :
    Option (Option GoError × List BeatEvent) :=
  match w.onlineCheck with
  | some e => some (some e, [BeatEvent.OnlineCheck])
  | none =>
    match beatLoop w fuel 0 with
    | none => none
    | some (e, evs) => some (some e, BeatEvent.OnlineCheck :: evs ++ [BeatEvent.CloseSend])

/-- One byte. -/
abbrev Byte := Fin 256

/-- Modelled from the spec: the generated enumeration `pb.TransferStatusCode`,
`Ok` or other. -/
inductive TransferStatusCode
  | Unknown
  | Ok
  | Failed
  deriving DecidableEq, Repr

/-- Modelled from the spec: the generated message `pb.TransferStatus`, the
coordinator's final answer to an upload. -/
structure TransferStatus where
  Code : TransferStatusCode
  deriving DecidableEq, Repr

/-- Modelled from the spec: the record `UploadStats` (declared outside
grpc.go): two timestamps and the 64-bit signed counter `BytesSent`. -/
structure UploadStats where
  StartedAt : Nat
  FinishedAt : Nat
  BytesSent : Int
  deriving DecidableEq, Repr

/-- The value of a Go `int64` after an arithmetic result `x`: two's complement
wrap-around into the range from -2^63 to 2^63 - 1. -/
def wrapInt64 (x : Int) : Int := (x + 2 ^ 63) % 2 ^ 64 - 2 ^ 63

/-- The calls `UploadFile` makes; `Read` carries the buffer length and `Send`
the content of the chunk. -/
inductive UploadEvent
  | Open (f : String)
  | Upload
  | Read (buflen : Nat)
  | Send (content : List Byte)
  | CloseAndRecv
  | CloseSend
  | FileClose
  deriving DecidableEq, Repr

/-- What the collaborators answer to `UploadFile`. -/
structure UploadWorld where
  /-- answer of `os.Open`: the content of the file -/
  openFile : Except GoError (List Byte)
  /-- error of `c.client.Upload` -/
  openStream : Option GoError
  /-- the number of bytes the system is ready to hand over at the k-th `Read` -/
  deliver : Nat → Nat
  /-- error, other than end of file, of the k-th `Read` -/
  readErr : Nat → Option GoError
  /-- error of the k-th `stream.Send` -/
  send : Nat → Option GoError
  /-- the pair returned by `stream.CloseAndRecv` -/
  closeAndRecv : TransferStatus × Option GoError
  /-- the two readings of `time.Now` -/
  startedAt : Nat
  finishedAt : Nat

/-- How the read loop of `UploadFile` is left: by `return nil, err`, or by
`break` at end of file with the value of `stats.BytesSent`. -/
inductive ReadExit
  | fail (err : GoError)
  | eof (bytesSent : Int)
  deriving DecidableEq, Repr

/-- The read loop of `UploadFile` (grpc.go lines 114-130) from its k-th
iteration on, with `rest` the unread part of the file and `bytesSent` the
counter, for at most `fuel` iterations.  A `Read` into the 1024-byte buffer
returns as many bytes as the buffer, the file and the system allow, and
end of file when that is none. -/
def uploadLoop (w : UploadWorld) :
    Nat → Nat → List Byte → Int → Option (List UploadEvent × ReadExit)
  | 0, _, _, _ => none
  | fuel + 1, k, rest, bytesSent =>
    let chunkSize := 1024
    match w.readErr k with
    | some e => some ([UploadEvent.Read chunkSize], .fail e)
    | none =>
      let n := min chunkSize (min rest.length (w.deliver k))
      if n = 0 then some ([UploadEvent.Read chunkSize], .eof bytesSent)
      else
        match w.send k with
        | some e => some ([UploadEvent.Read chunkSize, UploadEvent.Send (rest.take n)], .fail e)
        | none =>
          match uploadLoop w fuel (k + 1) (rest.drop n) (wrapInt64 (bytesSent + n)) with
          | none => none
          | some (evs, x) =>
            some (UploadEvent.Read chunkSize :: UploadEvent.Send (rest.take n) :: evs, x)

/-- The Go method `UploadFile` of grpc.go: the pair it returns and the calls it
made (the deferred `CloseSend` and `Close` last).  The read loop is given one
more iteration than the file has bytes, which is always enough
(`uploadLoop_returns`). -/
def UploadFile (w : UploadWorld) (f : String) :
    Option ((Option UploadStats × Option GoError) × List UploadEvent) :=
  match w.openFile with
  | .error e => some ((none, some e), [UploadEvent.Open f])
  | .ok content =>
    let t1 := [UploadEvent.Open f, UploadEvent.Upload]
    match w.openStream with
    | some e => some ((none, some e), t1 ++ [UploadEvent.FileClose])
    | none =>
      match uploadLoop w (content.length + 1) 0 content 0 with
      | none => none
      | some (evs, .fail e) =>
        some ((none, some e), t1 ++ evs ++ [UploadEvent.CloseSend, UploadEvent.FileClose])
      | some (evs, .eof bytesSent) =>
        let stats : UploadStats := ⟨w.startedAt, w.finishedAt, bytesSent⟩
        let t2 := t1 ++ evs ++ [UploadEvent.CloseAndRecv]
        let status := w.closeAndRecv.1
        let err := w.closeAndRecv.2
        match err with
        | some e => some ((none, some e), t2 ++ [UploadEvent.CloseSend, UploadEvent.FileClose])
        | none =>
          if status.Code ≠ TransferStatusCode.Ok then
            some ((none, err), t2 ++ [UploadEvent.CloseSend, UploadEvent.FileClose])
          else
            some ((some stats, none), t2 ++ [UploadEvent.CloseSend, UploadEvent.FileClose])

/-- The chunks sent by an upload, in order. -/
def chunksSent (t : List UploadEvent) : List (List Byte) :=
  t.filterMap fun e =>
    match e with
    | .Send content => some content
    | _ => none

/-! ### Sample worlds and jobs -/

/-- A world in which no operation fails, the container is found running on
every second check, and the i-th command exits with the i-th code of `codes`
(with 0 beyond the list). -/
def scripted (codes : List Int) : World where
  getClient := none
  create := .ok "c1"
  sendRunning := none
  answers := fun i => ⟨i % 2 == 0, none, none, .ok (i, "exec"), none, .ok (codes.getD i 0)⟩
  relayFinal := none
  sendFinal := none
  remove := none

/-- A job of three commands. -/
def buildJob : JobTask := ⟨"build", "golang:1.12", ["make deps", "make test", "make install"]⟩

/-- A heartbeat world in which the first `k` sends succeed and the next one
fails. -/
def failsAfter (k : Nat) : BeatWorld where
  onlineCheck := none
  send := fun i => if i < k then none else some ⟨"transport is closing"⟩

/-- An upload world in which the file holds `content`, every read fills the
buffer, every send succeeds and the coordinator answers with `code`. -/
def uploading (content : List Byte) (code : TransferStatusCode) : UploadWorld where
  openFile := .ok content
  openStream := none
  deliver := fun _ => 1024
  readErr := fun _ => none
  send := fun _ => none
  closeAndRecv := (⟨code⟩, none)
  startedAt := 100
  finishedAt := 200

end worker

/-! ## Tokenization lemmas -/

namespace strings

theorem splitChars_ne_nil (sep : Char) (l : List Char) : splitChars sep l ≠ [] := by
  cases l with
  | nil => simp [splitChars]
  | cons c cs =>
    unfold splitChars
    split
    · simp
    · split <;> simp

theorem Join_cons_char (c : Char) (t : List Char) (ts : List String) (sep : String) :
    Join (String.mk (c :: t) :: ts) sep = String.mk (c :: (Join (String.mk t :: ts) sep).data) := by
  cases ts with
  | nil => rfl
  | cons a rest =>
    simp only [Join]
    apply String.ext
    simp [String.data_append]

theorem Join_nil_cons (a : String) (rest : List String) (sep : Char) :
    (Join (String.mk [] :: a :: rest) (String.mk [sep])).data
      = sep :: (Join (a :: rest) (String.mk [sep])).data := by
  simp [Join, String.data_append]

theorem Join_splitChars (sep : Char) (l : List Char) :
    (Join ((splitChars sep l).map String.mk) (String.mk [sep])).data = l := by
  induction l with
  | nil => rfl
  | cons c cs ih =>
    unfold splitChars
    split
    · next h =>
      subst h
      obtain ⟨a, rest, hs⟩ := List.exists_cons_of_ne_nil (splitChars_ne_nil c cs)
      rw [hs] at ih ⊢
      simp only [List.map_cons] at ih ⊢
      rw [Join_nil_cons, ih]
    · obtain ⟨a, rest, hs⟩ := List.exists_cons_of_ne_nil (splitChars_ne_nil sep cs)
      rw [hs] at ih ⊢
      simp only [List.map_cons] at ih ⊢
      rw [Join_cons_char, ih]

theorem Join_Split (s : String) : Join (Split s ' ') " " = s := by
  apply String.ext
  exact Join_splitChars ' ' s.data

theorem splitChars_no_sep (sep : Char) (l : List Char) :
    ∀ t ∈ splitChars sep l, sep ∉ t := by
  induction l with
  | nil => simp [splitChars]
  | cons c cs ih =>
    unfold splitChars
    split
    · intro t ht
      rcases List.mem_cons.mp ht with h | h
      · simp [h]
      · exact ih t h
    · next hne =>
      obtain ⟨a, rest, hs⟩ := List.exists_cons_of_ne_nil (splitChars_ne_nil sep cs)
      rw [hs] at ih ⊢
      intro t ht
      simp only [List.mem_cons] at ht ih
      rcases ht with h | h
      · subst h
        intro hmem
        rcases List.mem_cons.mp hmem with h1 | h1
        · exact hne h1.symm
        · exact ih a (Or.inl rfl) h1
      · exact ih t (Or.inr h)

theorem splitChars_length (sep : Char) (l : List Char) :
    (splitChars sep l).length = l.count sep + 1 := by
  induction l with
  | nil => rfl
  | cons c cs ih =>
    unfold splitChars
    split
    · next h => subst h; simp [ih]
    · next hne =>
      obtain ⟨a, rest, hs⟩ := List.exists_cons_of_ne_nil (splitChars_ne_nil sep cs)
      rw [hs] at ih ⊢
      rw [List.count_cons_of_ne (Ne.symm hne)]
      simpa using ih

end strings

namespace worker
open strings strconv

theorem removals_append (a b : List Event) : removals (a ++ b) = removals a ++ removals b := by
  simp [removals]

theorem statusSignals_append (a b : List Event) :
    statusSignals (a ++ b) = statusSignals a ++ statusSignals b := by
  simp [statusSignals]

theorem execs_append (a b : List Event) : execs (a ++ b) = execs a ++ execs b := by
  simp [execs]

theorem runCommand_quiet (r : CommandRun) (id : String) (command : List String) :
    removals (runCommand r id command).1 = [] ∧
      statusSignals (runCommand r id command).1 = [] := by
  obtain ⟨running, start, announce, exec, stream, inspect⟩ := r
  cases running <;> cases start <;> cases announce <;> cases exec <;> cases stream <;>
    cases inspect <;> simp [runCommand, removals, statusSignals]

theorem runLoop_quiet (w : World) (id : String) (commands : List (List String)) :
    ∀ (i : Nat) (exitCode : Int) (lastCommand : List String),
      removals (runLoop w id i commands exitCode lastCommand).1 = [] ∧
        statusSignals (runLoop w id i commands exitCode lastCommand).1 = [] := by
  induction commands with
  | nil => intro i ec last; simp [runLoop, removals, statusSignals]
  | cons command rest ih =>
    intro i ec last
    have hq := runCommand_quiet (w.answers i) id command
    unfold runLoop
    split
    · next evs e heq => rw [heq] at hq; exact hq
    · next evs code heq =>
      rw [heq] at hq
      split
      · exact hq
      · have h := ih (i + 1) code command
        simp only [removals_append, statusSignals_append, hq.1, hq.2, h.1, h.2]
        simp

theorem runCommand_exitsWith (r : CommandRun) (id : String) (command : List String)
    (code : Int) (h : r.exitsWith code) :
    (runCommand r id command).2 = .ok code ∧
      execs (runCommand r id command).1 = ["pty" :: command] := by
  obtain ⟨running, start, announce, exec, stream, inspect⟩ := r
  obtain ⟨h1, h2, ⟨⟨conn, execID⟩, h3⟩, h4, h5⟩ := h
  simp only at h1 h2 h3 h4 h5
  subst h2 h3 h4 h5
  cases running
  · rw [h1 rfl]; simp [runCommand, execs]
  · simp [runCommand, execs]

theorem runLoop_cons_ok (w : World) (id : String) (i : Nat) (command : List String)
    (rest : List (List String)) (exitCode : Int) (lastCommand : List String) (code : Int)
    (h : (runCommand (w.answers i) id command).2 = .ok code) :
    runLoop w id i (command :: rest) exitCode lastCommand =
      if code ≠ 0 then ((runCommand (w.answers i) id command).1, .done code command)
      else ((runCommand (w.answers i) id command).1
              ++ (runLoop w id (i + 1) rest code command).1,
            (runLoop w id (i + 1) rest code command).2) := by
  rw [runLoop]
  generalize runCommand (w.answers i) id command = p at h
  obtain ⟨evs, x⟩ := p
  simp only at h
  subst h
  rfl

theorem getLast_getD_cons (command : List String) (rest : List (List String))
    (lastCommand : List String) :
    (command :: rest).getLast?.getD lastCommand = rest.getLast?.getD command := by
  cases rest with
  | nil => rfl
  | cons a t =>
    rw [List.getLast?_cons_cons, List.getLast?_eq_getLast _ (List.cons_ne_nil a t)]
    rfl

theorem runLoop_all_zero (w : World) (id : String) (commands : List (List String)) :
    ∀ (i : Nat) (lastCommand : List String),
      (∀ j, j < commands.length → (w.answers (i + j)).exitsWith 0) →
      ∃ evs, runLoop w id i commands 0 lastCommand
          = (evs, .done 0 (commands.getLast?.getD lastCommand)) ∧
        execs evs = commands.map (fun command => "pty" :: command) := by
  induction commands with
  | nil => intro i last _; exact ⟨[], rfl, rfl⟩
  | cons command rest ih =>
    intro i last h
    have h0 := runCommand_exitsWith (w.answers i) id command 0 (by simpa using h 0 (by simp))
    obtain ⟨evs, hrest, hex⟩ := ih (i + 1) command (fun j hj => by
      have := h (j + 1) (by simpa using hj)
      rwa [show i + (j + 1) = i + 1 + j by omega] at this)
    refine ⟨(runCommand (w.answers i) id command).1 ++ evs, ?_, ?_⟩
    · rw [runLoop_cons_ok w id i command rest 0 last 0 h0.1, getLast_getD_cons, hrest]
      simp
    · rw [execs_append, h0.2, hex]; rfl

theorem runLoop_stops (w : World) (id : String) (c : Int) (hc : c ≠ 0)
    (commands : List (List String)) :
    ∀ (i k : Nat) (exitCode : Int) (lastCommand command : List String),
      commands[k]? = some command →
      (∀ j, j < k → (w.answers (i + j)).exitsWith 0) →
      (w.answers (i + k)).exitsWith c →
      ∃ evs, runLoop w id i commands exitCode lastCommand = (evs, .done c command) ∧
        execs evs = (commands.take (k + 1)).map (fun command => "pty" :: command) := by
  induction commands with
  | nil => intro i k ec last command hk; simp at hk
  | cons first rest ih =>
    intro i k ec last command hk hzero hstop
    cases k with
    | zero =>
      simp only [List.getElem?_cons_zero, Option.some.injEq] at hk
      subst hk
      have h0 := runCommand_exitsWith (w.answers i) id first c (by simpa using hstop)
      refine ⟨(runCommand (w.answers i) id first).1, ?_, ?_⟩
      · rw [runLoop_cons_ok w id i first rest ec last c h0.1]
        simp [hc]
      · simpa using h0.2
    | succ k =>
      simp only [List.getElem?_cons_succ] at hk
      have h0 := runCommand_exitsWith (w.answers i) id first 0 (by simpa using hzero 0 (by omega))
      obtain ⟨evs, hrest, hex⟩ := ih (i + 1) k 0 first command hk
        (fun j hj => by
          have := hzero (j + 1) (by omega)
          rwa [show i + (j + 1) = i + 1 + j by omega] at this)
        (by rwa [show i + (k + 1) = i + 1 + k by omega] at hstop)
      refine ⟨(runCommand (w.answers i) id first).1 ++ evs, ?_, ?_⟩
      · rw [runLoop_cons_ok w id i first rest ec last 0 h0.1, hrest]
        simp
      · rw [execs_append, h0.2, hex]; simp

theorem StartJob_of_done (w : World) (task : JobTask) (id : String) (evs : List Event)
    (exitCode : Int) (lastCommand : List String)
    (hclient : w.getClient = none) (hcreate : w.create = .ok id)
    (hrunning : w.sendRunning = none)
    (hloop : runLoop w id 0 (task.Commands.map (fun taskcmd => Split taskcmd ' ')) 0 []
      = (evs, .done exitCode lastCommand))
    (hrelay : w.relayFinal = none) (hfinal : w.sendFinal = none) :
    StartJob w task = ⟨w.remove,
      [Event.GetClient, Event.CreateContainer task.Name task.Image [],
        Event.SendRunningStatus task.Name] ++ evs ++
      [Event.WriteContainerOutput id
          (if exitCode = 0 then
            "\n\x1b[32;1mThe command \"" ++ Join lastCommand " " ++ "\" exited with 0.\x1b[0m"
          else if exitCode = 137 then "\n\x1b[31;1mJob stopped with exit code 137.\x1b[0m"
          else "\n\x1b[31;1mThe command \"" ++ Join lastCommand " " ++ "\" exited with "
            ++ Itoa exitCode ++ ".\x1b[0m"),
        if exitCode = 0 then Event.SendPassingStatus task.Name
        else if exitCode = 137 then Event.SendStoppedStatus task.Name
        else Event.SendFailingStatus task.Name,
        Event.ContainerRemove id true]⟩ := by
  simp only [StartJob, hclient, hcreate, hrunning, hloop]
  split_ifs <;> simp [reportOutcome, hrelay, hfinal]

theorem StartJob_stops (w : World) (task : JobTask) (id : String) (k : Nat) (s : String)
    (c : Int) (hc : c ≠ 0)
    (hclient : w.getClient = none) (hcreate : w.create = .ok id)
    (hrunning : w.sendRunning = none)
    (hk : task.Commands[k]? = some s)
    (hbefore : ∀ i, i < k → (w.answers i).exitsWith 0)
    (hstop : (w.answers k).exitsWith c)
    (hrelay : w.relayFinal = none) (hfinal : w.sendFinal = none) :
    ∃ evs, execs evs = (task.Commands.take (k + 1)).map (fun s => "pty" :: Split s ' ') ∧
      removals evs = [] ∧ statusSignals evs = [] ∧
      StartJob w task = ⟨w.remove,
        [Event.GetClient, Event.CreateContainer task.Name task.Image [],
          Event.SendRunningStatus task.Name] ++ evs ++
        [Event.WriteContainerOutput id
            (if c = 137 then "\n\x1b[31;1mJob stopped with exit code 137.\x1b[0m"
            else "\n\x1b[31;1mThe command \"" ++ s ++ "\" exited with " ++ Itoa c ++ ".\x1b[0m"),
          if c = 137 then Event.SendStoppedStatus task.Name
          else Event.SendFailingStatus task.Name,
          Event.ContainerRemove id true]⟩ := by
  obtain ⟨evs, hloop, hex⟩ := runLoop_stops w id c hc
    (task.Commands.map (fun taskcmd => Split taskcmd ' ')) 0 k 0 [] (Split s ' ')
    (by simp [hk]) (by simpa using hbefore) (by simpa using hstop)
  have hq := runLoop_quiet w id (task.Commands.map (fun taskcmd => Split taskcmd ' ')) 0 0 []
  rw [hloop] at hq
  refine ⟨evs, ?_, hq.1, hq.2, ?_⟩
  · rw [hex, ← List.map_take, List.map_map]; rfl
  · rw [StartJob_of_done w task id evs c (Split s ' ') hclient hcreate hrunning hloop hrelay
      hfinal]
    simp [hc, Join_Split]

theorem StartJob_stops_execs (w : World) (task : JobTask) (id : String) (k : Nat)
    (s : String) (c : Int) (hc : c ≠ 0)
    (hclient : w.getClient = none) (hcreate : w.create = .ok id)
    (hrunning : w.sendRunning = none)
    (hk : task.Commands[k]? = some s)
    (hbefore : ∀ i, i < k → (w.answers i).exitsWith 0)
    (hstop : (w.answers k).exitsWith c)
    (hrelay : w.relayFinal = none) (hfinal : w.sendFinal = none) :
    execs (StartJob w task).trace
      = (task.Commands.take (k + 1)).map (fun s => "pty" :: Split s ' ') := by
  obtain ⟨evs, hex, -, -, heq⟩ := StartJob_stops w task id k s c hc hclient hcreate hrunning
    hk hbefore hstop hrelay hfinal
  rw [heq]
  simp only [execs_append, hex]
  split_ifs <;> simp [execs]

theorem exits_zero_before_executed (w : World) (task : JobTask) (id : String) (k : Nat)
    (s : String)
    (hclient : w.getClient = none) (hcreate : w.create = .ok id)
    (hrunning : w.sendRunning = none)
    (hk : task.Commands[k]? = some s)
    (hclean : ∀ i, i < k → ∃ code, (w.answers i).exitsWith code)
    (hrun : k < (execs (StartJob w task).trace).length)
    (hrelay : w.relayFinal = none) (hfinal : w.sendFinal = none) :
    ∀ i, i < k → (w.answers i).exitsWith 0 := by
  have hklen : k < task.Commands.length := by
    by_contra hlen
    rw [List.getElem?_eq_none (Nat.le_of_not_lt hlen)] at hk
    cases hk
  intro i
  induction i using Nat.strong_induction_on with
  | _ i ih =>
    intro hi
    obtain ⟨code, hcode⟩ := hclean i hi
    by_cases hz : code = 0
    · subst hz
      exact hcode
    · exfalso
      have hsi : task.Commands[i]? = some (task.Commands[i]) :=
        List.getElem?_eq_getElem (by omega)
      have hex := StartJob_stops_execs w task id i _ code hz hclient hcreate hrunning hsi
        (fun j hj => ih j hj (by omega)) hcode hrelay hfinal
      rw [hex] at hrun
      simp only [List.length_map, List.length_take] at hrun
      omega

/-- C1: when the container engine client is resolved, the container is created,
the Running status is sent, every command of the job runs without error and
exits with code 0, and the final relay and status send succeed, `StartJob`
hands every command of the job to `docker.Exec`, tokenized, in the listed
order, sends exactly the status signals Running then Passing for the job name,
and ends with the Passing status followed by one forced removal of the created
container, the only removal of the run; it returns what the removal returns.
A job without commands is included. -/
theorem StartJob_all_commands_exit_zero (w : World) (task : JobTask) (containerID : String)
    (hclient : w.getClient = none) (hcreate : w.create = .ok containerID)
    (hrunning : w.sendRunning = none)
    (hcommands : ∀ i, i < task.Commands.length → (w.answers i).exitsWith 0)
    (hrelay : w.relayFinal = none) (hfinal : w.sendFinal = none) :
    (StartJob w task).err = w.remove ∧
    execs (StartJob w task).trace = task.Commands.map (fun s => "pty" :: Split s ' ') ∧
    statusSignals (StartJob w task).trace
      = [Event.SendRunningStatus task.Name, Event.SendPassingStatus task.Name] ∧
    ∃ before, (StartJob w task).trace
        = before ++ [Event.SendPassingStatus task.Name,
            Event.ContainerRemove containerID true] ∧
      removals before = [] := by
  obtain ⟨evs, hloop, hex⟩ := runLoop_all_zero w containerID
    (task.Commands.map (fun taskcmd => Split taskcmd ' ')) 0 []
    (by simpa using hcommands)
  have hq := runLoop_quiet w containerID
    (task.Commands.map (fun taskcmd => Split taskcmd ' ')) 0 0 []
  rw [hloop] at hq
  rw [StartJob_of_done w task containerID evs 0 _ hclient hcreate hrunning hloop hrelay hfinal]
  refine ⟨rfl, ?_, ?_, ?_⟩
  · simp only [execs_append, hex, List.map_map]
    simp [execs, Function.comp_def]
  · simp only [statusSignals_append, hq.2]
    simp [statusSignals]
  · refine ⟨[Event.GetClient, Event.CreateContainer task.Name task.Image [],
        Event.SendRunningStatus task.Name] ++ evs ++
      [Event.WriteContainerOutput containerID
        ("\n\x1b[32;1mThe command \"" ++ Join
          ((task.Commands.map (fun taskcmd => Split taskcmd ' ')).getLast?.getD []) " "
          ++ "\" exited with 0.\x1b[0m")], ?_, ?_⟩
    · simp
    · simp only [removals_append, hq.1]
      simp [removals]

/-- C1 at a sample input: the three-command job in a world where every command
exits 0. -/
theorem StartJob_all_commands_exit_zero_witness :
    execs (StartJob (scripted []) buildJob).trace
      = [["pty", "make", "deps"], ["pty", "make", "test"], ["pty", "make", "install"]] ∧
    statusSignals (StartJob (scripted []) buildJob).trace
      = [Event.SendRunningStatus "build", Event.SendPassingStatus "build"] :=
  have h := StartJob_all_commands_exit_zero (scripted []) buildJob "c1" rfl rfl rfl
    (fun i _ => ⟨fun _ => rfl, rfl, ⟨_, rfl⟩, rfl, by simp [scripted]⟩) rfl rfl
  ⟨h.2.1, h.2.2.1⟩

/-- C2: when no container, relay or status operation fails and the k-th command
of the job is executed (the run makes more than k exec calls) and exits with
code 137, `StartJob` hands to `docker.Exec` the commands up to the k-th and
none after it, sends exactly the status signals Running then Stopped for the
job name, and ends with the Stopped status followed by one forced removal of
the created container, the only removal of the run. -/
theorem StartJob_command_exits_137 (w : World) (task : JobTask) (containerID : String)
    (k : Nat) (s : String)
    (hclient : w.getClient = none) (hcreate : w.create = .ok containerID)
    (hrunning : w.sendRunning = none)
    (hk : task.Commands[k]? = some s)
    (hclean : ∀ i, i < k → ∃ code, (w.answers i).exitsWith code)
    (hrun : k < (execs (StartJob w task).trace).length)
    (hstop : (w.answers k).exitsWith 137)
    (hrelay : w.relayFinal = none) (hfinal : w.sendFinal = none) :
    (StartJob w task).err = w.remove ∧
    execs (StartJob w task).trace
      = (task.Commands.take (k + 1)).map (fun s => "pty" :: Split s ' ') ∧
    statusSignals (StartJob w task).trace
      = [Event.SendRunningStatus task.Name, Event.SendStoppedStatus task.Name] ∧
    ∃ before, (StartJob w task).trace
        = before ++ [Event.SendStoppedStatus task.Name,
            Event.ContainerRemove containerID true] ∧
      removals before = [] := by
  have hbefore := exits_zero_before_executed w task containerID k s hclient hcreate hrunning
    hk hclean hrun hrelay hfinal
  obtain ⟨evs, hex, hrem, hstat, heq⟩ := StartJob_stops w task containerID k s 137 (by decide)
    hclient hcreate hrunning hk hbefore hstop hrelay hfinal
  rw [heq]
  refine ⟨rfl, ?_, ?_, ?_⟩
  · simp only [execs_append, hex]
    simp [execs]
  · simp only [statusSignals_append, hstat]
    simp [statusSignals]
  · refine ⟨[Event.GetClient, Event.CreateContainer task.Name task.Image [],
        Event.SendRunningStatus task.Name] ++ evs ++
      [Event.WriteContainerOutput containerID
        "\n\x1b[31;1mJob stopped with exit code 137.\x1b[0m"], ?_, ?_⟩
    · simp
    · simp only [removals_append, hrem]
      simp [removals]

/-- C2 at a sample input: the second of three commands exits 137. -/
theorem StartJob_command_exits_137_witness :
    execs (StartJob (scripted [0, 137]) buildJob).trace
      = [["pty", "make", "deps"], ["pty", "make", "test"]] ∧
    statusSignals (StartJob (scripted [0, 137]) buildJob).trace
      = [Event.SendRunningStatus "build", Event.SendStoppedStatus "build"] :=
  have h := StartJob_command_exits_137 (scripted [0, 137]) buildJob "c1" 1 "make test"
    rfl rfl rfl rfl
    (fun i _ => ⟨_, fun _ => rfl, rfl, ⟨_, rfl⟩, rfl, rfl⟩)
    (by decide)
    ⟨fun _ => rfl, rfl, ⟨_, rfl⟩, rfl, rfl⟩ rfl rfl
  ⟨h.2.1, h.2.2.1⟩

/-- C3: when no container, relay or status operation fails and the k-th command
of the job is executed (the run makes more than k exec calls) and exits with a
code that is neither 0 nor 137, `StartJob` hands to `docker.Exec` the commands
up to the k-th and none after it, sends exactly the status signals Running then
Failing for the job name, and ends with the Failing status followed by one
forced removal of the created container, the only removal of the run. -/
theorem StartJob_command_fails (w : World) (task : JobTask) (containerID : String)
    (k : Nat) (s : String) (c : Int) (hc0 : c ≠ 0) (hc137 : c ≠ 137)
    (hclient : w.getClient = none) (hcreate : w.create = .ok containerID)
    (hrunning : w.sendRunning = none)
    (hk : task.Commands[k]? = some s)
    (hclean : ∀ i, i < k → ∃ code, (w.answers i).exitsWith code)
    (hrun : k < (execs (StartJob w task).trace).length)
    (hstop : (w.answers k).exitsWith c)
    (hrelay : w.relayFinal = none) (hfinal : w.sendFinal = none) :
    (StartJob w task).err = w.remove ∧
    execs (StartJob w task).trace
      = (task.Commands.take (k + 1)).map (fun s => "pty" :: Split s ' ') ∧
    statusSignals (StartJob w task).trace
      = [Event.SendRunningStatus task.Name, Event.SendFailingStatus task.Name] ∧
    ∃ before, (StartJob w task).trace
        = before ++ [Event.SendFailingStatus task.Name,
            Event.ContainerRemove containerID true] ∧
      removals before = [] := by
  have hbefore := exits_zero_before_executed w task containerID k s hclient hcreate hrunning
    hk hclean hrun hrelay hfinal
  obtain ⟨evs, hex, hrem, hstat, heq⟩ := StartJob_stops w task containerID k s c hc0
    hclient hcreate hrunning hk hbefore hstop hrelay hfinal
  rw [if_neg hc137, if_neg hc137] at heq
  rw [heq]
  refine ⟨rfl, ?_, ?_, ?_⟩
  · simp only [execs_append, hex]
    simp [execs]
  · simp only [statusSignals_append, hstat]
    simp [statusSignals, hc137]
  · refine ⟨[Event.GetClient, Event.CreateContainer task.Name task.Image [],
        Event.SendRunningStatus task.Name] ++ evs ++
      [Event.WriteContainerOutput containerID
        ("\n\x1b[31;1mThe command \"" ++ s ++ "\" exited with " ++ Itoa c ++ ".\x1b[0m")],
      ?_, ?_⟩
    · simp [hc137]
    · simp only [removals_append, hrem]
      simp [removals]

/-- C3 at a sample input: the second of three commands exits 2. -/
theorem StartJob_command_fails_witness :
    execs (StartJob (scripted [0, 2]) buildJob).trace
      = [["pty", "make", "deps"], ["pty", "make", "test"]] ∧
    statusSignals (StartJob (scripted [0, 2]) buildJob).trace
      = [Event.SendRunningStatus "build", Event.SendFailingStatus "build"] :=
  have h := StartJob_command_fails (scripted [0, 2]) buildJob "c1" 1 "make test" 2
    (by decide) (by decide) rfl rfl rfl rfl
    (fun i _ => ⟨_, fun _ => rfl, rfl, ⟨_, rfl⟩, rfl, rfl⟩)
    (by decide)
    ⟨fun _ => rfl, rfl, ⟨_, rfl⟩, rfl, rfl⟩ rfl rfl
  ⟨h.2.1, h.2.2.1⟩

/-- C5 fails as stated: the command string with a tab between its two words is
kept as one token by `strings.Split(taskcmd, " ")`, and that token contains a
whitespace character. -/
theorem Split_keeps_tab_inside_token :
    Split "ls\t-la" ' ' = ["ls\t-la"] ∧
      ∃ t ∈ Split "ls\t-la" ' ', ∃ c ∈ t.data, c.isWhitespace = true :=
  ⟨by decide, "ls\t-la", by decide, '\t', by decide, by decide⟩

/-- C5, as the code has it: the tokens `StartJob` derives from a command string
are its pieces between occurrences of the space character, in order, with no
quoting or escaping awareness: no token contains a space, there is one more
token than the string has spaces, and the tokens joined by single spaces are
the string.  The two documented examples hold; a tab is not a separator, and
two spaces in a row give an empty token. -/
theorem Split_on_space (s : String) :
    (∀ t ∈ Split s ' ', ' ' ∉ t.data) ∧
    (Split s ' ').length = s.data.count ' ' + 1 ∧
    Join (Split s ' ') " " = s ∧
    Split "echo hello world" ' ' = ["echo", "hello", "world"] ∧
    Split "echo \x27a b\x27" ' ' = ["echo", "\x27a", "b\x27"] ∧
    Split "ls\t-la" ' ' = ["ls\t-la"] ∧
    Split "a  b" ' ' = ["a", "", "b"] := by
  refine ⟨?_, ?_, Join_Split s, by decide, by decide, by decide, by decide⟩
  · intro t ht
    simp only [Split, List.mem_map] at ht
    obtain ⟨l, hl, rfl⟩ := ht
    exact splitChars_no_sep ' ' s.data l hl
  · simp [Split, splitChars_length]

/-- C8: for every configuration whose address is empty, whatever the
certificate path and the compression flag and whatever the collaborators would
answer, `NewGRPCClient` returns no client and the error "grpc address endpoint
must be specified", having made no call at all: no certificate is loaded and
no dial is attempted. -/
theorem NewGRPCClient_empty_address (w : DialWorld) (rootCertificate : String)
    (compress : Bool) :
    NewGRPCClient w ⟨"", rootCertificate, compress⟩
      = ((none, some ⟨"grpc address endpoint must be specified"⟩), []) := by
  simp [NewGRPCClient]

theorem beatLoop_fails (w : BeatWorld) (e : GoError) :
    ∀ (k n fuel : Nat), (∀ i, i < k → w.send (n + i) = none) → w.send (n + k) = some e →
      k < fuel →
      beatLoop w fuel n = some (e,
        (List.replicate k
            [BeatEvent.Send ⟨OnlineStatusCode.Up⟩, BeatEvent.Sleep (5 * Second)]).flatten
          ++ [BeatEvent.Send ⟨OnlineStatusCode.Up⟩]) := by
  intro k
  induction k with
  | zero =>
    intro n fuel _ hfail hfuel
    obtain ⟨m, rfl⟩ : ∃ m, fuel = m + 1 := ⟨fuel - 1, by omega⟩
    simp only [Nat.add_zero] at hfail
    simp [beatLoop, hfail]
  | succ k ih =>
    intro n fuel hok hfail hfuel
    obtain ⟨m, rfl⟩ : ∃ m, fuel = m + 1 := ⟨fuel - 1, by omega⟩
    have h0 : w.send n = none := by simpa using hok 0 (by omega)
    have hrec := ih (n + 1) m
      (fun i hi => by
        have := hok (i + 1) (by omega)
        rwa [show n + (i + 1) = n + 1 + i by omega] at this)
      (by rwa [show n + (k + 1) = n + 1 + k by omega] at hfail)
      (by omega)
    simp [beatLoop, h0, hrec, List.replicate_succ]

theorem beatLoop_runs_on (w : BeatWorld) (hok : ∀ i, w.send i = none) :
    ∀ (fuel n : Nat), beatLoop w fuel n = none := by
  intro fuel
  induction fuel with
  | zero => intro n; rfl
  | succ m ih => intro n; simp [beatLoop, hok n, ih (n + 1)]

theorem beatLoop_pending (w : BeatWorld) :
    ∀ (fuel n : Nat), (∀ i, i < fuel → w.send (n + i) = none) → beatLoop w fuel n = none := by
  intro fuel
  induction fuel with
  | zero => intro n _; rfl
  | succ m ih =>
    intro n hok
    have h0 : w.send n = none := by simpa using hok 0 (by omega)
    have hrec := ih (n + 1) (fun i hi => by
      have := hok (i + 1) (by omega)
      rwa [show n + (i + 1) = n + 1 + i by omega] at this)
    simp [beatLoop, h0, hrec]

/-- C9: on a heartbeat stream that was opened, if the first k sends succeed and
the next one fails with `e`, then `StreamOnlineStatus` has not returned within
k iterations of its loop and, observed for more than k iterations, has returned
`e` after exactly these calls: k times a send of the status Up followed by a
sleep of 5 seconds, then one more send of Up (the failing one), then one
`CloseSend`; and if no send ever fails it has not returned after any number of
iterations. -/
theorem StreamOnlineStatus_until_send_fails (w : BeatWorld) (hopen : w.onlineCheck = none) :
    (∀ (k : Nat) (e : GoError), (∀ i, i < k → w.send i = none) → w.send k = some e →
      (∀ fuel, fuel ≤ k → StreamOnlineStatus w fuel = none) ∧
      ∀ fuel, k < fuel →
        StreamOnlineStatus w fuel = some (some e,
          BeatEvent.OnlineCheck ::
            ((List.replicate k
                [BeatEvent.Send ⟨OnlineStatusCode.Up⟩, BeatEvent.Sleep (5 * Second)]).flatten
              ++ [BeatEvent.Send ⟨OnlineStatusCode.Up⟩, BeatEvent.CloseSend]))) ∧
    ((∀ i, w.send i = none) → ∀ fuel, StreamOnlineStatus w fuel = none) := by
  constructor
  · intro k e hok hfail
    constructor
    · intro fuel hfuel
      have h := beatLoop_pending w fuel 0 (fun i hi => by simpa using hok i (by omega))
      simp [StreamOnlineStatus, hopen, h]
    · intro fuel hfuel
      have h := beatLoop_fails w e k 0 fuel (by simpa using hok) (by simpa using hfail) hfuel
      simp [StreamOnlineStatus, hopen, h]
  · intro hok fuel
    simp [StreamOnlineStatus, hopen, beatLoop_runs_on w hok]

/-- C9 at a sample input: two sends succeed and the third fails. -/
theorem StreamOnlineStatus_until_send_fails_witness :
    StreamOnlineStatus (failsAfter 2) 10 = some (some ⟨"transport is closing"⟩,
      [BeatEvent.OnlineCheck,
        BeatEvent.Send ⟨OnlineStatusCode.Up⟩, BeatEvent.Sleep 5000000000,
        BeatEvent.Send ⟨OnlineStatusCode.Up⟩, BeatEvent.Sleep 5000000000,
        BeatEvent.Send ⟨OnlineStatusCode.Up⟩, BeatEvent.CloseSend]) :=
  ((StreamOnlineStatus_until_send_fails (failsAfter 2) rfl).1 2 ⟨"transport is closing"⟩
    (fun i hi => by simp [failsAfter, hi]) rfl).2 10 (by decide)

theorem wrapInt64_of_range (x : Int) (h0 : 0 ≤ x) (h1 : x < 2 ^ 63) : wrapInt64 x = x := by
  unfold wrapInt64
  omega

theorem uploadLoop_returns (w : UploadWorld) :
    ∀ (fuel k : Nat) (rest : List Byte) (bytesSent : Int), rest.length < fuel →
      (uploadLoop w fuel k rest bytesSent).isSome = true := by
  intro fuel
  induction fuel with
  | zero => intro k rest sent h; omega
  | succ m ih =>
    intro k rest sent h
    unfold uploadLoop
    simp only
    cases w.readErr k with
    | some e => rfl
    | none =>
      simp only
      split
      · rfl
      · next hn =>
        cases w.send k with
        | some e => rfl
        | none =>
          have hlen : (rest.drop (min 1024 (min rest.length (w.deliver k)))).length < m := by
            rw [List.length_drop]; omega
          have := ih (k + 1) _ (wrapInt64 (sent + ↑(min 1024 (min rest.length (w.deliver k))))) hlen
          simp only
          cases hres : uploadLoop w m (k + 1)
            (rest.drop (min 1024 (min rest.length (w.deliver k))))
            (wrapInt64 (sent + ↑(min 1024 (min rest.length (w.deliver k))))) with
          | none => rw [hres] at this; simp at this
          | some p => rfl

theorem uploadLoop_full_reads (w : UploadWorld) (hread : ∀ k, w.readErr k = none)
    (hfull : ∀ k, 1024 ≤ w.deliver k) (hsend : ∀ k, w.send k = none) :
    ∀ (fuel k : Nat) (rest : List Byte) (bytesSent : Int), rest.length < fuel →
      0 ≤ bytesSent → bytesSent + rest.length < 2 ^ 63 →
      ∃ evs, uploadLoop w fuel k rest bytesSent = some (evs, .eof (bytesSent + rest.length)) ∧
        (chunksSent evs).length = (rest.length + 1023) / 1024 ∧
        (∀ chunk ∈ chunksSent evs, chunk.length ≤ 1024) ∧
        (chunksSent evs).flatten = rest := by
  intro fuel
  induction fuel with
  | zero => intro k rest sent h; omega
  | succ m ih =>
    intro k rest sent hfuel hsent hsize
    have hn : min 1024 (min rest.length (w.deliver k)) = min 1024 rest.length := by
      have := hfull k
      omega
    unfold uploadLoop
    simp only [hread k, hsend k, hn]
    by_cases hzero : min 1024 rest.length = 0
    · have hlen : rest.length = 0 := by omega
      refine ⟨[UploadEvent.Read 1024], ?_, ?_, ?_, ?_⟩
      · simp [hzero, hlen]
      · simp [chunksSent, hlen]
      · simp [chunksSent]
      · simp [chunksSent, List.length_eq_zero.mp hlen]
    · have hdrop : (rest.drop (min 1024 rest.length)).length = rest.length - min 1024 rest.length :=
        List.length_drop _ _
      have hwrap : wrapInt64 (sent + ↑(min 1024 rest.length)) = sent + ↑(min 1024 rest.length) :=
        wrapInt64_of_range _ (by omega) (by omega)
      obtain ⟨evs, hrec, hcount, hbound, hcat⟩ := ih (k + 1) (rest.drop (min 1024 rest.length))
        (sent + ↑(min 1024 rest.length)) (by omega) (by omega) (by rw [hdrop]; omega)
      refine ⟨UploadEvent.Read 1024 :: UploadEvent.Send (rest.take (min 1024 rest.length)) :: evs,
        ?_, ?_, ?_, ?_⟩
      · rw [if_neg hzero, hwrap, hrec]
        simp only [Option.some.injEq, Prod.mk.injEq, true_and, ReadExit.eof.injEq]
        rw [hdrop]
        omega
      · have : chunksSent (UploadEvent.Read 1024
            :: UploadEvent.Send (rest.take (min 1024 rest.length)) :: evs)
            = rest.take (min 1024 rest.length) :: chunksSent evs := by
          simp [chunksSent]
        rw [this, List.length_cons, hcount, hdrop]
        omega
      · intro chunk hchunk
        have : chunksSent (UploadEvent.Read 1024
            :: UploadEvent.Send (rest.take (min 1024 rest.length)) :: evs)
            = rest.take (min 1024 rest.length) :: chunksSent evs := by
          simp [chunksSent]
        rw [this, List.mem_cons] at hchunk
        rcases hchunk with h | h
        · rw [h, List.length_take]; omega
        · exact hbound chunk h
      · have : chunksSent (UploadEvent.Read 1024
            :: UploadEvent.Send (rest.take (min 1024 rest.length)) :: evs)
            = rest.take (min 1024 rest.length) :: chunksSent evs := by
          simp [chunksSent]
        rw [this, List.flatten_cons, hcat, List.take_append_drop]

/-- C6: for a file of N bytes, N below 2^63 as every file size is, when the
file and the stream are opened, no read fails and every read fills the
1024-byte buffer as far as bytes remain, every chunk send succeeds and the
coordinator answers Ok, `UploadFile` returns the stats with `BytesSent = N` and
no error; the chunks it sent number (N + 1023) / 1024, that is N / 1024 rounded
up, each has at most 1024 bytes, and in order they concatenate to the content
of the file.  For the empty file no chunk is sent and `BytesSent = 0`. -/
theorem UploadFile_sends_file_in_chunks (w : UploadWorld) (f : String) (content : List Byte)
    (hopen : w.openFile = .ok content) (hstream : w.openStream = none)
    (hread : ∀ k, w.readErr k = none) (hfull : ∀ k, 1024 ≤ w.deliver k)
    (hsend : ∀ k, w.send k = none)
    (hrecv : w.closeAndRecv = (⟨TransferStatusCode.Ok⟩, none))
    (hsize : content.length < 2 ^ 63) :
    ∃ trace,
      UploadFile w f
        = some ((some ⟨w.startedAt, w.finishedAt, content.length⟩, none), trace) ∧
      (chunksSent trace).length = (content.length + 1023) / 1024 ∧
      (∀ chunk ∈ chunksSent trace, chunk.length ≤ 1024) ∧
      (chunksSent trace).flatten = content ∧
      (content = [] → chunksSent trace = []) := by
  obtain ⟨evs, hloop, hcount, hbound, hcat⟩ := uploadLoop_full_reads w hread hfull hsend
    (content.length + 1) 0 content 0 (by omega) (by omega) (by omega)
  have hchunks : chunksSent ([UploadEvent.Open f, UploadEvent.Upload] ++ evs ++
      [UploadEvent.CloseAndRecv] ++ [UploadEvent.CloseSend, UploadEvent.FileClose])
      = chunksSent evs := by
    simp [chunksSent]
  refine ⟨[UploadEvent.Open f, UploadEvent.Upload] ++ evs ++ [UploadEvent.CloseAndRecv]
    ++ [UploadEvent.CloseSend, UploadEvent.FileClose], ?_, ?_, ?_, ?_, ?_⟩
  · simp [UploadFile, hopen, hstream, hloop, hrecv]
  · rw [hchunks, hcount]
  · rw [hchunks]; exact hbound
  · rw [hchunks, hcat]
  · intro hnil
    rw [hchunks]
    apply List.eq_nil_of_length_eq_zero
    rw [hcount, hnil]
    rfl

/-- C6 at a sample input: a file of 2050 bytes goes out as chunks of 1024, 1024
and 2 bytes. -/
theorem UploadFile_sends_file_in_chunks_witness :
    ∃ trace,
      UploadFile (uploading (List.replicate 2050 7) TransferStatusCode.Ok) "artifact.tar"
        = some ((some ⟨100, 200, 2050⟩, none), trace) ∧
      (chunksSent trace).length = 3 :=
  have h := UploadFile_sends_file_in_chunks
    (uploading (List.replicate 2050 7) TransferStatusCode.Ok) "artifact.tar"
    (List.replicate 2050 7) rfl rfl (fun _ => rfl) (fun _ => Nat.le_refl 1024) (fun _ => rfl) rfl
    (by rw [List.length_replicate]; norm_num)
  h.elim fun trace ht =>
    ⟨trace,
      by
        have h1 := ht.1
        rw [List.length_replicate] at h1
        exact_mod_cast h1,
      by
        have h2 := ht.2.1
        rw [List.length_replicate] at h2
        exact h2⟩

/-- C7 on the code: the file is read and sent without error and the final
receive succeeds with the status Failed; `UploadFile` then returns no stats and
a nil error. -/
theorem UploadFile_rejected_returns_nil_error :
    UploadFile (uploading [1, 2, 3] TransferStatusCode.Failed) "artifact.tar"
      = some ((none, none),
          [UploadEvent.Open "artifact.tar", UploadEvent.Upload,
            UploadEvent.Read 1024, UploadEvent.Send [1, 2, 3], UploadEvent.Read 1024,
            UploadEvent.CloseAndRecv, UploadEvent.CloseSend, UploadEvent.FileClose]) := by
  decide

end worker
